import Mathlib

/-!
# Verification of the mapa-calor-python news heatmap pipeline

Shallow embedding of `src/Bot/app.py` (the crime-news heatmap bot): RSS
ingestion filtering, keyword relevance scoring, MinHash/LSH near-duplicate
detection, geocoding selection, idempotent SQLite persistence, 3-decimal
spatial aggregation, and the orchestrating pipeline.

Modelling conventions:
* Python floats are modelled as `ℚ` (the values manipulated here are exact
  decimals; no claim depends on binary-float artifacts).
* Timestamps are modelled as integers (`ℤ`), `datetime.now(timezone.utc)`
  becomes an explicit `now` parameter.
* External collaborators (HTTP fetch, langdetect, spaCy entity extraction,
  Nominatim geocoding) are oracle functions supplied to the pipeline;
  fallible ones return `Except PipeError _`.  The geocoder is total
  (`Option`-valued) because the source wraps it in a
  `RateLimiter(..., swallow_exceptions=True)`, which converts exceptions
  into `None`.
* Python truthiness on floats (`g.latitude and g.longitude`) is modelled as
  the value being nonzero.
* `\w` word characters are modelled as alphanumeric-or-underscore (the
  inputs of interest are ASCII).
-/

namespace MapaCalor

attribute [local semireducible] Rat.mul Rat.inv Rat.add Rat.sub
  Rat.ofScientific

/-! Primitive string operations, implemented by structural recursion over
the character list (Python `str` methods on the ASCII fragment the claims
exercise). -/

/-- Python `str.lower()` (ASCII case folding; the keyword table is already
lowercase). -/
def pyLower (s : String) : String := ⟨s.toList.map Char.toLower⟩

/-- Python `str.strip()`: drop leading and trailing whitespace. -/
def pyStrip (s : String) : String :=
  ⟨((s.toList.dropWhile Char.isWhitespace).reverse.dropWhile
      Char.isWhitespace).reverse⟩

/-- Python `s[:n]`: the first `n` characters. -/
def pyTake (s : String) (n : ℕ) : String := ⟨s.toList.take n⟩

/-- Python `s.startswith(pre)`. -/
def pyStartsWith (s pre : String) : Bool := pre.toList.isPrefixOf s.toList

/-- Python `len(s)` (number of characters). -/
def pyLen (s : String) : ℕ := s.toList.length

/-- Error token for any exception raised by an external collaborator. -/
inductive PipeError where
  | fail : PipeError
deriving DecidableEq, Repr

/-! ## Data model -/

/-- A raw feed entry as surfaced by `feedparser` (`f.entries` elements):
`e.get("link")`, `e.get("title")`, `e.get("published_parsed")`,
`e.get("updated_parsed")`.  Timestamps are integers. -/
structure Entry where
  link : Option String
  title : Option String
  published_parsed : Option ℤ
  updated_parsed : Option ℤ
deriving DecidableEq, Repr

/-- A normalized candidate item, the dicts produced by `fetch_rss_items`. -/
structure RssItem where
  title : String
  link : String
  published_at : ℤ
deriving DecidableEq, Repr

/-- A persisted row of the `news_events` table (`save_events` tuples). -/
structure Event where
  link : String
  title : String
  published_at : ℤ
  lang : String
  score : ℚ
  lat : ℚ
  lon : ℚ
  place : String
  created_at : ℤ
deriving DecidableEq, Repr

/-! ## Ingestion: `fetch_rss_items` -/

/-- Processing of one feed entry inside the loop of `fetch_rss_items`:
`link = e.get("link"); title = (e.get("title") or "").strip();
pub = e.get("published_parsed") or e.get("updated_parsed");
if not link or not title: continue;
if pub: (drop when pub_dt < since) else published_at = dt_utc()`.
Python truthiness of the link string means `None` and `""` are both
rejected. -/
def entryItem (since now : ℤ) (e : Entry) : Option RssItem :=
  let link := e.link.getD ""
  let title := pyStrip (e.title.getD "")
  let pub := e.published_parsed.orElse fun _ => e.updated_parsed
  if link = "" ∨ title = "" then none
  else
    match pub with
    | some p => if p < since then none else some ⟨title, link, p⟩
    | none => some ⟨title, link, now⟩

/-- `fetch_rss_items`: filter and normalize the parsed entries of the feeds
(feed retrieval itself is external; the concatenated entry list is the
input).  `since` is the cutoff, `now` the current UTC time `dt_utc()`. -/
def fetch_rss_items (entries : List Entry) (since now : ℤ) : List RssItem :=
  entries.filterMap (entryItem since now)

/-! ## Language detection wrapper: `lang_of` -/

/-- `lang_of`: run the external `detect` on the first 2000 characters,
map any code starting with `"pt"` to `"pt"`, everything else — including a
raised exception — to `"en"`. -/
def lang_of (detect : String → Except PipeError String) (text : String) :
    String :=
  match detect (pyTake text 2000) with
  | .ok l => if pyStartsWith l "pt" then "pt" else "en"
  | .error _ => "en"

/-! ## Relevance scorer: `crime_score` -/

/-- The `CRIME_KEYWORDS` table, verbatim from the source. -/
def CRIME_KEYWORDS : List (String × List String) :=
  [("pt", ["homicídio", "assassinato", "roubo", "furto", "tráfico",
           "agressão", "sequestro", "extorsão", "estupro", "latrocínio",
           "corrupção", "fraude", "crime organizado", "milícia",
           "tiroteio"]),
   ("en", ["homicide", "murder", "robbery", "theft", "trafficking",
           "assault", "kidnapping", "extortion", "rape", "felony",
           "corruption", "fraud", "organized crime", "shooting", "arson"])]

/-- Dictionary lookup (`CRIME_KEYWORDS[lang]`, `nlp[lang]`), `none`
modelling a raised `KeyError`. -/
def dictFind (m : List (String × α)) (k : String) : Option α :=
  (m.find? fun p => p.1 == k).map Prod.snd

/-- Substring test, Python's `k in t` on strings. -/
def substrOf (k t : String) : Bool :=
  go k.toList t.toList
where
  go (ks : List Char) : List Char → Bool
    | [] => ks.isEmpty
    | c :: rest => ks.isPrefixOf (c :: rest) || go ks rest

/-- `sum(1 for k in kws if k in t)` where `t = text.lower()`. -/
def hitCount (kws : List String) (text : String) : ℕ :=
  (kws.filter fun k => substrOf k (pyLower text)).length

/-- `crime_score(text, lang)`:
`min(hits/5,1)*0.6 + min(len(text)/2000,1)*0.4`, with `none` modelling the
`KeyError` on an unsupported language. -/
def crime_score (text lang : String) : Option ℚ :=
  (dictFind CRIME_KEYWORDS lang).map fun kws =>
    min ((hitCount kws text : ℚ) / 5) 1 * (3 / 5) +
      min ((pyLen text : ℚ) / 2000) 1 * (2 / 5)

/-! ## spaCy pipelines: `load_pipelines` / `extract_places` lookup -/

/-- `load_pipelines`: builds the dict `{"en": …, "pt": …}`; each entry has
a fallback model, so when the function returns at all both keys are
present.  The loaded pipeline objects are abstract (`α`). -/
def load_pipelines (pEn pPt : α) : List (String × α) :=
  [("en", pEn), ("pt", pPt)]

/-! ## Geocoding: `geocode_places` -/

/-- One geocoder result is kept when `g and g.latitude and g.longitude`
holds, i.e. the call resolved and both coordinates are nonzero (Python
float truthiness). -/
def validGeo (g : Option (ℚ × ℚ)) (n : String) : Option (ℚ × ℚ × String) :=
  match g with
  | some (lat, lon) =>
      if lat = 0 ∨ lon = 0 then none else some (lat, lon, n)
  | none => none

/-- `geocode_places(names)`: call the (rate-limited, exception-swallowing)
geocoder on every name, in order, and collect the valid results. -/
def geocode_places (geocoder : String → Option (ℚ × ℚ))
    (names : List String) : List (ℚ × ℚ × String) :=
  match names with
  | [] => []
  | n :: rest =>
      match validGeo (geocoder n) n with
      | some t => t :: geocode_places geocoder rest
      | none => geocode_places geocoder rest

/-- `geocode_places` instrumented with the list of names actually passed to
the geocoder (`rate(n)` is called once per loop iteration, always). -/
def geocode_places_log (geocoder : String → Option (ℚ × ℚ)) :
    List String → List (ℚ × ℚ × String) × List String
  | [] => ([], [])
  | n :: rest =>
      let (res, log) := geocode_places_log geocoder rest
      match validGeo (geocoder n) n with
      | some t => (t :: res, n :: log)
      | none => (res, n :: log)

/-- Modelled from the spec: `select_location` (§4.4) — the source has no
such short-circuiting function; the spec describes a selector that "calls
an external geocoding collaborator once per candidate, in order, stopping
at the first candidate that yields a valid coordinate".  Instrumented with
its call log for comparison with `geocode_places_log`. -/
def select_location_log (geocoder : String → Option (ℚ × ℚ)) :
    List String → Option (ℚ × ℚ × String) × List String
  | [] => (none, [])
  | n :: rest =>
      match validGeo (geocoder n) n with
      | some t => (some t, [n])
      | none =>
          let (res, log) := select_location_log geocoder rest
          (res, n :: log)

/-! ## MinHash signatures and the LSH index

The source delegates to the `datasketch` library (`MinHash`,
`MinHashLSH`), which is not part of this repository.  The constructions
below are modelled from the spec (§4.2–§4.3): a signature is, per slot, the
minimum of a slot-specific hash over the token set (the empty set keeps the
initial sentinel `maxHash`); the index stores signatures and reports a
match when some stored signature agrees with the query on a full band of
slots. -/

/-- Modelled from the spec: the initial "maximally dissimilar" sentinel
filling every slot of the signature of an empty token set (`datasketch`
uses `(1 << 32) - 1`). -/
def maxHash : ℕ := 2 ^ 32 - 1

/-- Word characters of the regex `\w` (ASCII fragment). -/
def isWordChar (c : Char) : Bool := c.isAlphanum || c = '_'

/-- Split a character list at every character satisfying `p` (the pieces
between separators, empties included). -/
def splitChars (p : Char → Bool) : List Char → List (List Char)
  | [] => [[]]
  | c :: rest =>
      match splitChars p rest with
      | [] => if p c then [[], []] else [[c]]
      | w :: ws => if p c then [] :: w :: ws else (c :: w) :: ws

/-- `set(re.findall(r"\w{5,}", text.lower()))`: the distinct maximal runs
of word characters of length ≥ 5 in the lowercased text (as a
duplicate-free list in first-occurrence order; only the underlying set
matters downstream). -/
def tokensOf (text : String) : List String :=
  (((splitChars (fun c => !isWordChar c) (pyLower text).toList).filter
    fun w => 5 ≤ w.length).map String.mk).eraseDups

/-- Modelled from the spec: slot `i` of a MinHash signature — the minimum
of the `i`-th hash function over the token set, `maxHash` when empty. -/
def sigSlot (h : ℕ → String → ℕ) (tokens : List String) (i : ℕ) : ℕ :=
  (tokens.map (h i)).foldl min maxHash

/-- `text_signature(text, num_perm)`: the MinHash signature of the text's
5+-character token set, parameterized by the hash family `h`. -/
def text_signature (h : ℕ → String → ℕ) (numPerm : ℕ) (text : String) :
    List ℕ :=
  (List.range numPerm).map (sigSlot h (tokensOf text))

/-- Modelled from the spec: the LSH index state — the banding scheme (each
band a list of slot indices) plus the inserted keyed signatures. -/
structure MinHashLSH where
  bands : List (List ℕ)
  entries : List (String × List ℕ)
deriving DecidableEq, Repr

/-- Modelled from the spec: `lsh.query(sig)` is truthy iff some inserted
signature agrees with `sig` on every slot of some band. -/
def MinHashLSH.query (l : MinHashLSH) (sig : List ℕ) : Bool :=
  l.entries.any fun e =>
    l.bands.any fun band => band.all fun j => sig.getD j 0 == e.2.getD j 0

/-- `lsh.insert(key, sig)`. -/
def MinHashLSH.insert (l : MinHashLSH) (key : String) (sig : List ℕ) :
    MinHashLSH :=
  { l with entries := (key, sig) :: l.entries }

/-- The banding used for `num_perm=128` (8 bands of 16 rows).  None of the
verified properties depends on the exact split: they hold for any family
of nonempty bands over the 128 slots. -/
def defaultBands : List (List ℕ) :=
  (List.range 8).map fun b => (List.range 16).map fun r => 16 * b + r

/-- `build_lsh(threshold=0.85, num_perm=128)`: a fresh, empty index. -/
def build_lsh : MinHashLSH := ⟨defaultBands, []⟩

/-! ## Event store: `ensure_db` / `save_events`

The SQLite table `news_events` has `link TEXT UNIQUE`; `save_events` runs
`INSERT OR IGNORE`, so a row whose link is already present is silently
skipped.  The store is modelled as the list of rows in insertion order. -/

/-- One `INSERT OR IGNORE` of a row into `news_events`: a no-op when some
stored row already has the same link, an append otherwise. -/
def insert_if_new (db : List Event) (e : Event) : List Event :=
  if db.any fun x => x.link == e.link then db else db ++ [e]

/-- `save_events(rows)`: `executemany` of `INSERT OR IGNORE`, i.e. the
rows inserted one by one in order. -/
def save_events (db : List Event) (rows : List Event) : List Event :=
  rows.foldl insert_if_new db

/-! ## Spatial aggregation: `aggregate` -/

/-- SQLite's `round(x, 3)`: round half away from zero at the third decimal
place. -/
def round3 (q : ℚ) : ℚ :=
  (if 0 ≤ q then (⌊q * 1000 + 1 / 2⌋ : ℤ) else -⌊-(q * 1000) + 1 / 2⌋) /
    1000

/-- The grouping key `(round(lat,3), round(lon,3))` of a stored event. -/
def bucketOf (e : Event) : ℚ × ℚ := (round3 e.lat, round3 e.lon)

/-- `aggregate()`: `SELECT round(lat,3), round(lon,3), COUNT(*) …
GROUP BY round(lat,3), round(lon,3)` over the store.  The output order is
unspecified by SQL; first-occurrence order is used here and callers treat
the result as a multiset. -/
def aggregate (db : List Event) : List (ℚ × ℚ × ℕ) :=
  ((db.map bucketOf).eraseDups).map fun b =>
    (b.1, b.2, (db.filter fun e => bucketOf e == b).length)

/-- `build_heatmap(points, outfile)`: rendering is external (folium); the
core only depends on the returned artifact handle. -/
def build_heatmap (points : List (ℚ × ℚ × ℕ)) (outfile : String) :
    String :=
  outfile

/-! ## Pipeline orchestration: `run_pipeline` -/

/-- The external collaborators consumed by one pipeline run, plus the
ambient clock and the MinHash hash family. -/
structure Oracles where
  fetch_clean_text : String → Except PipeError String
  detect : String → Except PipeError String
  extract_places : String → String → Except PipeError (List String)
  geocoder : String → Option (ℚ × ℚ)
  hash : ℕ → String → ℕ
  now : ℤ

/-- The run statistics dict returned by `run_pipeline`. -/
structure Stats where
  inserted : ℕ
  points : ℕ
  heatmap_file : String
deriving DecidableEq, Repr

/-- The body of the per-item `try:` block of `run_pipeline`, with the
`except Exception: continue` applied at whatever point an oracle raises:
the item yields no row and processing resumes with the index state as
mutated so far (an exception after `lsh.insert` does not roll the insert
back).  `sha1(link)` is injective in practice and modelled as the link
itself; the unread `sig_index` dict is omitted. -/
def process_item (o : Oracles) (l : MinHashLSH) (it : RssItem) :
    Option Event × MinHashLSH :=
  match o.fetch_clean_text it.link with
  | .error _ => (none, l)
  | .ok text =>
      let lang := lang_of o.detect text
      match crime_score text lang with
      | none => (none, l)
      | some s =>
          if s < 3 / 5 then (none, l)
          else
            let sig := text_signature o.hash 128 text
            if l.query sig then (none, l)
            else
              let l' := l.insert it.link sig
              match o.extract_places text lang with
              | .error _ => (none, l')
              | .ok places =>
                  match (geocode_places o.geocoder places).head? with
                  | none => (none, l')
                  | some (lat, lon, place) =>
                      (some ⟨it.link, it.title, it.published_at, lang, s,
                             lat, lon, place, o.now⟩, l')

/-- The item loop of `run_pipeline`: the `to_save` rows accumulated over
the items, threading the LSH state. -/
def pipeline_rows (o : Oracles) (l : MinHashLSH) :
    List RssItem → List Event
  | [] => []
  | it :: rest =>
      match process_item o l it with
      | (some row, l') => row :: pipeline_rows o l' rest
      | (none, l') => pipeline_rows o l' rest

/-- `run_pipeline(rss_urls, since, top_n)` over an initial store state:
fetch and cap the items, run the loop, `save_events` the survivors,
aggregate, render, and report `{"inserted": len(to_save),
"points": len(pts), "heatmap_file": out}`. -/
def run_pipeline (o : Oracles) (db : List Event) (entries : List Entry)
    (since : ℤ) (top_n : ℕ) : Stats :=
  let items := (fetch_rss_items entries since o.now).take top_n
  let to_save := pipeline_rows o build_lsh items
  let db' := save_events db to_save
  let pts := aggregate db'
  let out := build_heatmap pts "heatmap.html"
  ⟨to_save.length, pts.length, out⟩

/-! ## Concrete fixtures used by witnesses and counterexamples -/

/-- Event at `(1.23456, 9.87654)` from the spec's aggregation example. -/
def eC1a : Event := ⟨"l1", "t1", 0, "en", 1, 1.23456, 9.87654, "p1", 0⟩

/-- Event at `(1.23449, 9.87649)` from the spec's aggregation example. -/
def eC1b : Event := ⟨"l2", "t2", 0, "en", 1, 1.23449, 9.87649, "p2", 0⟩

/-- Two events sharing a link but no other field. -/
def eC3a : Event := ⟨"lnk", "first", 1, "en", 1, 10, 20, "a", 1⟩

/-- Second insert attempt for the link of `eC3a`. -/
def eC3b : Event := ⟨"lnk", "second", 2, "pt", 0, 30, 40, "b", 2⟩

/-- Oracles whose language detector always raises while everything else
succeeds and the fetched text passes every pipeline gate. -/
def oC6 : Oracles where
  fetch_clean_text := fun _ => .ok "murder robbery theft fraud arson"
  detect := fun _ => .error .fail
  extract_places := fun _ _ => .ok ["paris"]
  geocoder := fun _ => some (2, 3)
  hash := fun i s => i + s.length
  now := 0

/-- Oracles whose text fetch always raises. -/
def oC6err : Oracles where
  fetch_clean_text := fun _ => .error .fail
  detect := fun _ => .ok "en"
  extract_places := fun _ _ => .ok []
  geocoder := fun _ => none
  hash := fun _ _ => 0
  now := 0

/-- A fixed candidate item. -/
def itC6 : RssItem := ⟨"t", "l", 0⟩

/-- Oracles whose geocoder only ever returns a point on the equator. -/
def oC10 : Oracles where
  fetch_clean_text := fun _ => .ok "murder robbery theft fraud arson"
  detect := fun _ => .ok "en"
  extract_places := fun _ _ => .ok ["quito"]
  geocoder := fun _ => some (0, 5)
  hash := fun i s => i + s.length
  now := 0

/-- A geocoder resolving only the candidate `"b"`. -/
def gC2 : String → Option (ℚ × ℚ) := fun s => if s = "b" then some (1, 2) else none

/-! ## Helper lemmas -/

theorem foldl_min_le_init (l : List ℕ) (a : ℕ) : l.foldl min a ≤ a := by
  induction l generalizing a with
  | nil => exact le_rfl
  | cons x xs ih => exact le_trans (ih (min a x)) (min_le_left a x)

theorem foldl_min_mem (l : List ℕ) (a : ℕ) : l.foldl min a ∈ a :: l := by
  induction l generalizing a with
  | nil => simp [List.foldl]
  | cons x xs ih =>
      have h := ih (min a x)
      rcases List.mem_cons.mp h with h | h
      · rcases min_choice a x with hm | hm
        · exact List.mem_cons.mpr (Or.inl (by simpa [hm] using h))
        · refine List.mem_cons.mpr (Or.inr ?_)
          exact List.mem_cons.mpr (Or.inl (by simpa [hm] using h))
      · exact List.mem_cons.mpr (Or.inr (List.mem_cons.mpr (Or.inr h)))

theorem foldl_min_le_mem (l : List ℕ) (a x : ℕ) (hx : x ∈ l) :
    l.foldl min a ≤ x := by
  induction l generalizing a with
  | nil => cases hx
  | cons y ys ih =>
      rcases List.mem_cons.mp hx with rfl | h
      · exact le_trans (foldl_min_le_init ys (min a x)) (min_le_right a x)
      · exact ih (min a y) h

theorem sigSlot_mem (h : ℕ → String → ℕ) (toks : List String) (i : ℕ)
    (hne : toks ≠ []) (hlt : ∀ t ∈ toks, h i t < maxHash) :
    sigSlot h toks i ∈ toks.map (h i) := by
  have hmem := foldl_min_mem (toks.map (h i)) maxHash
  rcases List.mem_cons.mp hmem with heq | hmem'
  · exfalso
    obtain ⟨t0, ht0⟩ := List.exists_mem_of_ne_nil toks hne
    have hx : h i t0 ∈ toks.map (h i) := List.mem_map_of_mem (h i) ht0
    have hle : sigSlot h toks i ≤ h i t0 :=
      foldl_min_le_mem (toks.map (h i)) maxHash (h i t0) hx
    exact absurd (hlt t0 ht0) (not_lt.mpr (heq ▸ hle))
  · exact hmem'

theorem text_signature_getD (h : ℕ → String → ℕ) (numPerm : ℕ)
    (text : String) (j : ℕ) (hj : j < numPerm) :
    (text_signature h numPerm text).getD j 0 =
      sigSlot h (tokensOf text) j := by
  unfold text_signature
  have hlen : j < ((List.range numPerm).map
      (sigSlot h (tokensOf text))).length := by
    simpa using hj
  rw [List.getD_eq_getElem _ _ hlen]
  simp

theorem score_expr_bounds (h L : ℕ) :
    0 ≤ min ((h : ℚ) / 5) 1 * (3 / 5) + min ((L : ℚ) / 2000) 1 * (2 / 5) ∧
    min ((h : ℚ) / 5) 1 * (3 / 5) + min ((L : ℚ) / 2000) 1 * (2 / 5) ≤ 1 := by
  have h0 : (0 : ℚ) ≤ min ((h : ℚ) / 5) 1 := le_min (by positivity) (by norm_num)
  have l0 : (0 : ℚ) ≤ min ((L : ℚ) / 2000) 1 := le_min (by positivity) (by norm_num)
  have h1 : min ((h : ℚ) / 5) 1 ≤ 1 := min_le_right _ _
  have l1 : min ((L : ℚ) / 2000) 1 ≤ 1 := min_le_right _ _
  constructor <;> nlinarith

/-! ## Claims -/

/-- C4: for every text and every supported language code (`"pt"` or
`"en"`), `crime_score(text, lang)` returns a value in the closed interval
`[0, 1]`; in particular `crime_score("", lang)` returns exactly `0.0`. -/
theorem crime_score_range_c4 :
    ∀ lang : String, lang = "pt" ∨ lang = "en" →
      (∀ text, ∃ q, crime_score text lang = some q ∧ 0 ≤ q ∧ q ≤ 1) ∧
      crime_score "" lang = some 0 := by
  intro lang hl
  rcases hl with rfl | rfl <;>
    exact ⟨fun text => ⟨_, rfl, (score_expr_bounds _ _).1,
      (score_expr_bounds _ _).2⟩, by decide⟩

theorem crime_score_range_c4_witness :
    ("en" = "pt" ∨ "en" = "en") ∧
    (∃ q, crime_score "murder" "en" = some q ∧ 0 ≤ q ∧ q ≤ 1) ∧
    crime_score "" "en" = some 0 :=
  ⟨Or.inr rfl, (crime_score_range_c4 "en" (Or.inr rfl)).1 "murder",
    (crime_score_range_c4 "en" (Or.inr rfl)).2⟩

/-- C7: `crime_score` is monotonic — with a fixed supported language, a
text with at least as many matched keywords and at least the character
length of another scores at least as high. -/
theorem crime_score_monotone_c7 :
    ∀ (lang : String) (kws : List String) (t1 t2 : String) (q1 q2 : ℚ),
      dictFind CRIME_KEYWORDS lang = some kws →
      crime_score t1 lang = some q1 → crime_score t2 lang = some q2 →
      hitCount kws t2 ≤ hitCount kws t1 → pyLen t2 ≤ pyLen t1 →
      q2 ≤ q1 := by
  intro lang kws t1 t2 q1 q2 hfind h1 h2 hh hl
  unfold crime_score at h1 h2
  rw [hfind] at h1 h2
  simp only [Option.map_some', Option.some.injEq] at h1 h2
  subst h1 h2
  have m1 : min ((hitCount kws t2 : ℚ) / 5) 1 ≤
      min ((hitCount kws t1 : ℚ) / 5) 1 := by
    gcongr

  have m2 : min ((pyLen t2 : ℚ) / 2000) 1 ≤
      min ((pyLen t1 : ℚ) / 2000) 1 := by
    gcongr

  nlinarith

theorem crime_score_monotone_c7_witness :
    crime_score "murder" "en" = some (303 / 2500) ∧
    crime_score "" "en" = some 0 ∧ (0 : ℚ) ≤ 303 / 2500 :=
  ⟨by decide, by decide,
    crime_score_monotone_c7 "en"
      ["homicide", "murder", "robbery", "theft", "trafficking", "assault",
       "kidnapping", "extortion", "rape", "felony", "corruption", "fraud",
       "organized crime", "shooting", "arson"]
      "murder" "" (303 / 2500) 0 (by decide) (by decide) (by decide)
      (by decide) (by decide)⟩

/-- C9: `lang_of` is total and returns only `"pt"` or `"en"`, falling back
to `"en"` on detector failure or any non-Portuguese code, so the
`CRIME_KEYWORDS[lang]` lookup of `crime_score` and the `nlp[lang]` lookup
of `extract_places` never miss on a language it produced. -/
theorem lang_of_total_c9 :
    ∀ (detect : String → Except PipeError String) (text : String)
      {α : Type} (pEn pPt : α),
      (lang_of detect text = "pt" ∨ lang_of detect text = "en") ∧
      (dictFind CRIME_KEYWORDS (lang_of detect text)).isSome = true ∧
      (dictFind (load_pipelines pEn pPt) (lang_of detect text)).isSome
        = true := by
  intro detect text α pEn pPt
  have hcase : lang_of detect text = "pt" ∨ lang_of detect text = "en" := by
    unfold lang_of
    cases detect (pyTake text 2000) with
    | ok l =>
        cases h : pyStartsWith l "pt" with
        | true => exact Or.inl (by simp [h])
        | false => exact Or.inr (by simp [h])
    | error e => exact Or.inr rfl
  refine ⟨hcase, ?_, ?_⟩ <;> rcases hcase with h | h <;> rw [h] <;> rfl

/-- C8: candidate ingestion excludes every entry lacking a (truthy) link
or a non-empty stripped title, excludes every entry whose publish
timestamp is older than the cutoff, and stamps entries with no publish
timestamp with the current UTC time instead of excluding them. -/
theorem fetch_rss_filter_c8 :
    (∀ (since now : ℤ) (e : Entry),
       e.link.getD "" = "" ∨ pyStrip (e.title.getD "") = "" →
       fetch_rss_items [e] since now = []) ∧
    (∀ (since now : ℤ) (e : Entry) (p : ℤ),
       e.published_parsed.orElse (fun _ => e.updated_parsed) = some p →
       p < since → fetch_rss_items [e] since now = []) ∧
    (∀ (since now : ℤ) (e : Entry),
       e.published_parsed = none → e.updated_parsed = none →
       ¬ e.link.getD "" = "" → ¬ pyStrip (e.title.getD "") = "" →
       fetch_rss_items [e] since now =
         [⟨pyStrip (e.title.getD ""), e.link.getD "", now⟩]) := by
  refine ⟨?_, ?_, ?_⟩
  · intro since now e hbad
    simp [fetch_rss_items, entryItem, hbad]
  · intro since now e p hpub hold
    by_cases hbad : e.link.getD "" = "" ∨ pyStrip (e.title.getD "") = ""
    · simp [fetch_rss_items, entryItem, hbad]
    · simp only [fetch_rss_items, entryItem, hpub, List.filterMap]
      rw [if_neg hbad, if_pos hold]
  · intro since now e hp hu hlink htitle
    have hbad : ¬ (e.link.getD "" = "" ∨ pyStrip (e.title.getD "") = "") :=
      fun hor => hor.elim hlink htitle
    simp only [fetch_rss_items, entryItem, hp, hu, Option.orElse,
      List.filterMap]
    rw [if_neg hbad]

theorem fetch_rss_filter_c8_witness :
    ((some "" : Option String).getD "" = "" ∨
      pyStrip ((some "t" : Option String).getD "") = "") ∧
    fetch_rss_items [⟨some "", some "t", none, none⟩] 0 5 = [] ∧
    fetch_rss_items [⟨some "l", some "t", some (-1), none⟩] 0 5 = [] ∧
    fetch_rss_items [⟨some "l", some " t ", none, none⟩] 0 5 =
      [⟨"t", "l", 5⟩] :=
  ⟨Or.inl rfl,
    fetch_rss_filter_c8.1 0 5 ⟨some "", some "t", none, none⟩ (Or.inl rfl),
    fetch_rss_filter_c8.2.1 0 5 ⟨some "l", some "t", some (-1), none⟩ (-1)
      rfl (by decide),
    fetch_rss_filter_c8.2.2 0 5 ⟨some "l", some " t ", none, none⟩ rfl rfl
      (by decide) (by decide)⟩

/-- C3: inserting two events with the same link and different other fields
leaves exactly one stored event for that link, carrying the first insert's
values; the second insert is a silent no-op; and `insert_if_new` preserves
the at-most-one-event-per-link invariant. -/
theorem event_store_idempotent_c3 :
    (∀ (db : List Event) (e1 e2 : Event), e1.link = e2.link →
       (∀ x ∈ db, x.link ≠ e1.link) →
       save_events db [e1, e2] = db ++ [e1] ∧
       (save_events db [e1, e2]).filter
         (fun x => x.link == e1.link) = [e1]) ∧
    (∀ (db : List Event) (e : Event), (db.map Event.link).Nodup →
       ((insert_if_new db e).map Event.link).Nodup) := by
  constructor
  · intro db e1 e2 hlink hdb
    have step1 : insert_if_new db e1 = db ++ [e1] := by
      unfold insert_if_new
      rw [if_neg]
      simp only [List.any_eq_true, beq_iff_eq, not_exists, not_and]
      exact fun x hx => hdb x hx
    have step2 : insert_if_new (db ++ [e1]) e2 = db ++ [e1] := by
      unfold insert_if_new
      rw [if_pos]
      simp only [List.any_eq_true, beq_iff_eq]
      exact ⟨e1, List.mem_append_right db (List.mem_singleton_self e1),
        hlink⟩
    have hsave : save_events db [e1, e2] = db ++ [e1] := by
      show insert_if_new (insert_if_new db e1) e2 = db ++ [e1]
      rw [step1, step2]
    refine ⟨hsave, ?_⟩
    rw [hsave, List.filter_append]
    have hleft : db.filter (fun x => x.link == e1.link) = [] := by
      rw [List.filter_eq_nil_iff]
      intro x hx
      simpa using hdb x hx
    have hright : [e1].filter (fun x => x.link == e1.link) = [e1] := by
      simp
    rw [hleft, hright, List.nil_append]
  · intro db e hnd
    unfold insert_if_new
    by_cases hmem : db.any (fun x => x.link == e.link) = true
    · rw [if_pos hmem]; exact hnd
    · rw [if_neg hmem, List.map_append]
      rw [List.nodup_append]
      refine ⟨hnd, List.nodup_singleton _, ?_⟩
      intro a ha hb
      have ha' : a = e.link := by simpa using hb
      subst ha'
      obtain ⟨x, hx, hxl⟩ := List.mem_map.mp ha
      have : db.any (fun x => x.link == e.link) = true := by
        simp only [List.any_eq_true, beq_iff_eq]
        exact ⟨x, hx, hxl⟩
      exact hmem this

theorem event_store_idempotent_c3_witness :
    eC3a.link = eC3b.link ∧
    save_events [] [eC3a, eC3b] = [] ++ [eC3a] ∧
    (save_events [] [eC3a, eC3b]).filter
      (fun x => x.link == eC3a.link) = [eC3a] :=
  ⟨rfl, (event_store_idempotent_c3.1 [] eC3a eC3b rfl (by simp)).1,
    (event_store_idempotent_c3.1 [] eC3a eC3b rfl (by simp)).2⟩

/-- C10: `geocode_places` discards any geocoding result whose latitude or
longitude equals `0.0` (Python float truthiness), so when every resolvable
candidate lies on the equator or prime meridian the location list is empty
and the item is never saved. -/
theorem zero_coord_never_saved_c10 :
    (∀ (g : String → Option (ℚ × ℚ)) (names : List String),
       (∀ n ∈ names, ∀ la lo, g n = some (la, lo) → la = 0 ∨ lo = 0) →
       geocode_places g names = []) ∧
    (∀ (o : Oracles) (l : MinHashLSH) (it : RssItem),
       (∀ n la lo, o.geocoder n = some (la, lo) → la = 0 ∨ lo = 0) →
       (process_item o l it).1 = none) := by
  have key : ∀ (g : String → Option (ℚ × ℚ)) (names : List String),
      (∀ n ∈ names, ∀ la lo, g n = some (la, lo) → la = 0 ∨ lo = 0) →
      geocode_places g names = [] := by
    intro g names hzero
    induction names with
    | nil => rfl
    | cons n rest ih =>
        have hvalid : validGeo (g n) n = none := by
          cases hg : g n with
          | none => rfl
          | some pair =>
              rcases pair with ⟨la, lo⟩
              rcases hzero n (List.mem_cons_self n rest) la lo hg with h | h <;>
                simp [validGeo, h]
        have hrest := ih fun m hm => hzero m (List.mem_cons_of_mem n hm)
        rw [geocode_places, hvalid, hrest]
  refine ⟨key, ?_⟩
  intro o l it hzero
  cases hf : o.fetch_clean_text it.link with
  | error e => simp [process_item, hf]
  | ok text =>
      cases hs : crime_score text (lang_of o.detect text) with
      | none => simp [process_item, hf, hs]
      | some s =>
          by_cases hlt : s < 3 / 5
          · simp [process_item, hf, hs, hlt]
          · by_cases hq : l.query (text_signature o.hash 128 text) = true
            · simp [process_item, hf, hs, hlt, hq]
            · cases hp : o.extract_places text (lang_of o.detect text) with
              | error e => simp [process_item, hf, hs, hlt, hq, hp]
              | ok places =>
                  have hgeo : geocode_places o.geocoder places = [] :=
                    key o.geocoder places fun n _ la lo h =>
                      hzero n la lo h
                  simp [process_item, hf, hs, hlt, hq, hp, hgeo]

theorem zero_coord_never_saved_c10_witness :
    (∀ n ∈ ["quito"], ∀ la lo : ℚ,
       oC10.geocoder n = some (la, lo) → la = 0 ∨ lo = 0) ∧
    geocode_places oC10.geocoder ["quito"] = [] ∧
    (process_item oC10 build_lsh itC6).1 = none := by
  have hz : ∀ n, ∀ la lo : ℚ, oC10.geocoder n = some (la, lo) →
      la = 0 ∨ lo = 0 := by
    intro n la lo h
    have h' : ((0 : ℚ), (5 : ℚ)) = (la, lo) := Option.some.inj h
    exact Or.inl (congrArg Prod.fst h').symm
  exact ⟨fun n _ => hz n,
    zero_coord_never_saved_c10.1 oC10.geocoder ["quito"] fun n _ => hz n,
    zero_coord_never_saved_c10.2 oC10 build_lsh itC6 hz⟩

/-- A kept geocoding result carries the name it was queried with. -/
theorem validGeo_name (g : Option (ℚ × ℚ)) (n : String)
    (t : ℚ × ℚ × String) (h : validGeo g n = some t) : t.2.2 = n := by
  cases g with
  | none => simp [validGeo] at h
  | some pair =>
      rcases pair with ⟨la, lo⟩
      by_cases hz : la = 0 ∨ lo = 0
      · simp [validGeo, hz] at h
      · simp only [validGeo, if_neg hz, Option.some.injEq] at h
        rw [← h]

/-- C2 (amended): `geocode_places` calls the geocoder once per candidate
for *every* candidate, in order, with no early stop; the pipeline then
uses the first candidate that yielded a valid (nonzero) coordinate, and an
item whose candidates all fail to resolve gets the empty location list. -/
theorem geocode_first_valid_c2 :
    (∀ (g : String → Option (ℚ × ℚ)) (names : List String),
       (geocode_places_log g names).2 = names ∧
       (geocode_places_log g names).1 = geocode_places g names) ∧
    (∀ (g : String → Option (ℚ × ℚ)) (names : List String),
       geocode_places g names = [] ↔
         ∀ n ∈ names, validGeo (g n) n = none) ∧
    (∀ (g : String → Option (ℚ × ℚ)) (names : List String)
       (lat lon : ℚ) (n : String),
       (geocode_places g names).head? = some (lat, lon, n) →
       ∃ pre post, names = pre ++ n :: post ∧
         (∀ m ∈ pre, validGeo (g m) m = none) ∧
         validGeo (g n) n = some (lat, lon, n)) := by
  refine ⟨?_, ?_, ?_⟩
  · intro g names
    induction names with
    | nil => exact ⟨rfl, rfl⟩
    | cons n rest ih =>
        rw [geocode_places_log, geocode_places]
        rcases ih with ⟨ih2, ih1⟩
        cases hv : validGeo (g n) n with
        | none => exact ⟨by simp [ih2], by simp [ih1]⟩
        | some t => exact ⟨by simp [ih2], by simp [ih1]⟩
  · intro g names
    induction names with
    | nil => simp [geocode_places]
    | cons n rest ih =>
        rw [geocode_places]
        cases hv : validGeo (g n) n with
        | none =>
            simp only [List.mem_cons]
            constructor
            · intro hnil m hm
              rcases hm with rfl | hm
              · exact hv
              · exact (ih.mp hnil) m hm
            · intro hall
              exact ih.mpr fun m hm => hall m (Or.inr hm)
        | some t =>
            constructor
            · intro hnil; cases hnil
            · intro hall
              have := hall n (List.mem_cons_self n rest)
              rw [hv] at this
              cases this
  · intro g names lat lon n hhead
    induction names with
    | nil => cases hhead
    | cons m rest ih =>
        rw [geocode_places] at hhead
        cases hv : validGeo (g m) m with
        | some t =>
            rw [hv] at hhead
            simp only [List.head?_cons, Option.some.injEq] at hhead
            subst hhead
            have hmn : n = m := validGeo_name (g m) m (lat, lon, n) hv
            subst hmn
            exact ⟨[], rest, rfl, by simp, hv⟩
        | none =>
            simp only [hv] at hhead
            obtain ⟨pre, post, heq, hpre, hval⟩ := ih hhead
            refine ⟨m :: pre, post, by rw [heq]; rfl, ?_, hval⟩
            intro x hx
            rcases List.mem_cons.mp hx with rfl | hx
            · exact hv
            · exact hpre x hx

theorem geocode_first_valid_c2_witness :
    (geocode_places gC2 ["a", "b"]).head? = some (1, 2, "b") ∧
    (∃ pre post, ["a", "b"] = pre ++ "b" :: post ∧
       (∀ m ∈ pre, validGeo (gC2 m) m = none) ∧
       validGeo (gC2 "b") "b" = some (1, 2, "b")) :=
  ⟨by decide, geocode_first_valid_c2.2.2 gC2 ["a", "b"] 1 2 "b" (by decide)⟩

/-- C2 counterexample: with a geocoder that resolves every candidate, the
code still calls the geocoder on the second candidate after the first has
already produced a valid coordinate — its call log is `["a", "b"]`, while
the spec's stop-at-first-success selector would log only `["a"]`. -/
theorem geocode_no_early_stop_counterexample_c2 :
    (geocode_places_log (fun _ => some (1, 1)) ["a", "b"]).2 = ["a", "b"] ∧
    (select_location_log (fun _ => some (1, 1)) ["a", "b"]).2 = ["a"] ∧
    (["a", "b"] : List String) ≠ ["a"] :=
  ⟨by decide, by decide, by decide⟩

/-- C1 counterexample: the spec's two example events do *not* share a
3-decimal bucket — `round(1.23456, 3) = 1.235` but `round(1.23449, 3) =
1.234` (and `9.877` vs `9.876`) — so `aggregate()` reports two points of
count 1 each, not a single point counting both. -/
theorem aggregate_buckets_counterexample_c1 :
    bucketOf eC1a ≠ bucketOf eC1b ∧
    (aggregate (save_events [] [eC1a, eC1b])).length = 2 ∧
    ∀ p ∈ aggregate (save_events [] [eC1a, eC1b]), p.2.2 = 1 := by decide

/-- C1 (amended): `aggregate` rounds latitude and longitude to 3 decimal
places; the two stored events land in the distinct buckets
`(1.235, 9.877)` and `(1.234, 9.876)` and are reported as two aggregated
points, each with count 1. -/
theorem aggregate_rounds_c1 :
    round3 eC1a.lat = 1.235 ∧ round3 eC1a.lon = 9.877 ∧
    round3 eC1b.lat = 1.234 ∧ round3 eC1b.lon = 9.876 ∧
    aggregate (save_events [] [eC1a, eC1b]) =
      [(1.235, 9.877, 1), (1.234, 9.876, 1)] := by decide

/-- C5 counterexample: two texts with *no* 5+-character tokens at all have
(vacuously) disjoint token sets, yet both get the all-sentinel empty-set
signature, so after inserting the first the second's query returns
`true`. -/
theorem lsh_empty_tokens_collide_c5 :
    (∀ tok ∈ tokensOf "a b", tok ∉ tokensOf "c d") ∧
    tokensOf "a b" = [] ∧
    (build_lsh.insert "k1"
        (text_signature (fun _ s => s.length) 128 "a b")).query
      (text_signature (fun _ s => s.length) 128 "c d") = true := by decide

/-- C5 (amended): when the two texts each contain at least one
5+-character token, their token sets are disjoint, and the hash family
separates the two token sets (no cross-collision, values below the
sentinel), the signatures differ in every slot, so no LSH band can agree
and the second text's query returns `false` after the first is
inserted — for any family of nonempty bands over the slots. -/
theorem lsh_disjoint_no_collision_c5 :
    ∀ (h : ℕ → String → ℕ) (bands : List (List ℕ)) (key t1 t2 : String)
      (numPerm : ℕ),
      (∀ band ∈ bands, band ≠ [] ∧ ∀ j ∈ band, j < numPerm) →
      tokensOf t1 ≠ [] → tokensOf t2 ≠ [] →
      (∀ i < numPerm, ∀ a ∈ tokensOf t1, ∀ b ∈ tokensOf t2,
        h i a ≠ h i b) →
      (∀ i < numPerm, ∀ a ∈ tokensOf t1, h i a < maxHash) →
      (∀ i < numPerm, ∀ b ∈ tokensOf t2, h i b < maxHash) →
      ((MinHashLSH.mk bands []).insert key
          (text_signature h numPerm t1)).query
        (text_signature h numPerm t2) = false := by
  intro h bands key t1 t2 numPerm hbands h1 h2 hinj hbound1 hbound2
  unfold MinHashLSH.insert MinHashLSH.query
  simp only [List.any_cons, List.any_nil, Bool.or_false]
  rw [List.any_eq_false]
  intro band hband
  obtain ⟨hne, hidx⟩ := hbands band hband
  obtain ⟨j, hj⟩ := List.exists_mem_of_ne_nil band hne
  intro hall
  have hj' := (List.all_eq_true.mp hall) j hj
  have hjlt := hidx j hj
  rw [beq_iff_eq, text_signature_getD h numPerm t2 j hjlt,
    text_signature_getD h numPerm t1 j hjlt] at hj'
  obtain ⟨a, ha, hae⟩ := List.mem_map.mp
    (sigSlot_mem h (tokensOf t1) j h1 fun t ht => hbound1 j hjlt t ht)
  obtain ⟨b, hb, hbe⟩ := List.mem_map.mp
    (sigSlot_mem h (tokensOf t2) j h2 fun t ht => hbound2 j hjlt t ht)
  exact hinj j hjlt a ha b hb (by rw [hae, hbe, hj'])

theorem lsh_disjoint_no_collision_c5_witness :
    (∀ band ∈ defaultBands, band ≠ [] ∧ ∀ j ∈ band, j < 128) ∧
    tokensOf "abcde" ≠ [] ∧ tokensOf "fghijk" ≠ [] ∧
    ((MinHashLSH.mk defaultBands []).insert "k"
        (text_signature (fun _ s => s.length) 128 "abcde")).query
      (text_signature (fun _ s => s.length) 128 "fghijk") = false :=
  ⟨by decide, by decide, by decide,
    lsh_disjoint_no_collision_c5 (fun _ s => s.length) defaultBands "k"
      "abcde" "fghijk" 128 (by decide) (by decide) (by decide) (by decide)
      (by decide) (by decide)⟩

/-- C6 counterexample: a run in which language detection raises on every
input — the affected item is *not* dropped: `lang_of` swallows the
exception, falls back to `"en"`, and the item is processed to the end and
saved (`inserted = 1`). -/
theorem detect_failure_not_dropped_c6 :
    oC6.detect (pyTake "murder robbery theft fraud arson" 2000)
      = .error .fail ∧
    (run_pipeline oC6 [] [⟨some "l", some "t", some 0, none⟩]
        0 300).inserted = 1 :=
  ⟨rfl, by decide⟩

/-- C6 (amended): an exception reaching the per-item handler — raised in
text fetch, or in any later step such as entity extraction — drops only
that item and the loop proceeds to the rest (with the index state as
already mutated); an exception during language detection, however, is
caught inside `lang_of`, which falls back to `"en"` so the item continues
instead of being dropped. -/
theorem pipeline_failure_isolation_c6 :
    (∀ (o : Oracles) (l : MinHashLSH) (it : RssItem)
       (rest : List RssItem),
       o.fetch_clean_text it.link = .error .fail →
       pipeline_rows o l (it :: rest) = pipeline_rows o l rest) ∧
    (∀ (o : Oracles) (l : MinHashLSH) (it : RssItem)
       (rest : List RssItem) (text : String),
       o.fetch_clean_text it.link = .ok text →
       o.extract_places text (lang_of o.detect text) = .error .fail →
       (process_item o l it).1 = none ∧
       pipeline_rows o l (it :: rest) =
         pipeline_rows o (process_item o l it).2 rest) ∧
    (∀ (detect : String → Except PipeError String) (text : String),
       detect (pyTake text 2000) = .error .fail →
       lang_of detect text = "en") := by
  refine ⟨?_, ?_, ?_⟩
  · intro o l it rest hfetch
    have hpi : process_item o l it = (none, l) := by
      simp [process_item, hfetch]
    simp [pipeline_rows, hpi]
  · intro o l it rest text hfetch hext
    have hnone : (process_item o l it).1 = none := by
      cases hs : crime_score text (lang_of o.detect text) with
      | none => simp [process_item, hfetch, hs]
      | some s =>
          by_cases hlt : s < 3 / 5
          · simp [process_item, hfetch, hs, hlt]
          · by_cases hq : l.query (text_signature o.hash 128 text) = true
            · simp [process_item, hfetch, hs, hlt, hq]
            · simp [process_item, hfetch, hs, hlt, hq, hext]
    refine ⟨hnone, ?_⟩
    rcases hpi : process_item o l it with ⟨opt, l'⟩
    rw [hpi] at hnone
    simp only at hnone
    subst hnone
    simp [pipeline_rows, hpi]
  · intro detect text hd
    unfold lang_of
    rw [hd]

theorem pipeline_failure_isolation_c6_witness :
    oC6err.fetch_clean_text itC6.link = .error .fail ∧
    pipeline_rows oC6err build_lsh [itC6] =
      pipeline_rows oC6err build_lsh [] ∧
    lang_of (fun _ => .error .fail) "hello" = "en" :=
  ⟨rfl, pipeline_failure_isolation_c6.1 oC6err build_lsh itC6 [] rfl,
    pipeline_failure_isolation_c6.2.2 (fun _ => .error .fail) "hello" rfl⟩

end MapaCalor
